import Mathlib

/-!
Shallow embedding of the tilenol Elasticsearch source and layer construction
(`elasticsearch.go` / `layer.go`), together with proofs about the feature
retrieval pipeline: bounds-filter construction, the scroll pagination loop,
document-to-feature mapping, the aggregation path, retrieval-mode dispatch,
nested JSON path resolution, layer validation, and the request-context tile
precondition.

Go values of type `interface{}` holding decoded JSON are modelled by `JValue`;
Go `map[string]interface{}` is modelled as an association list of string keys
(unique in any map produced by `json.Unmarshal`).  External library calls
(the orb GeoJSON geometry decoder, the geohash bounding-box decoder, the
Elasticsearch client) are abstracted as function parameters; everything else
is translated directly from the repository source.
-/

set_option autoImplicit false

namespace Tilenol

/-- Decoded JSON value, the model of Go `interface{}` after `json.Unmarshal`. -/
inductive JValue where
  | null
  | bool (b : Bool)
  | num (q : Rat)
  | str (s : String)
  | arr (xs : List JValue)
  | obj (fields : List (String × JValue))

/-- Lookup in a Go map modelled as an association list: `v, found := m[k]`. -/
def lookupKey {α : Type} : List (String × α) → String → Option α
  | [], _ => none
  | (k', v) :: rest, k => if k' = k then some v else lookupKey rest k

/-- Embedding of `GetNested` (part_000 lines 232-246): traverse a path of keys
in a nested JSON object; empty path returns the current value as found; a
missing key or a non-object value yields not-found. -/
def GetNested : JValue → List String → Option JValue
  | v, [] => some v
  | JValue.obj fields, k :: ks =>
    match lookupKey fields k with
    | some v => GetNested v ks
    | none => none
  | _, _ :: _ => none

/-- Embedding of Go `strings.Split(s, ".")` specialized to the single-character
separator used by the source: splits the character list on `'.'`. -/
def splitDotsAux : List Char → List Char → List String
  | [], acc => [String.mk acc.reverse]
  | c :: cs, acc =>
    if c = '.' then String.mk acc.reverse :: splitDotsAux cs [] else splitDotsAux cs (c :: acc)

/-- Split a string on `'.'`, as `strings.Split(s, ".")` does in `hitToFeature`. -/
def splitDots (s : String) : List String :=
  splitDotsAux s.data []

/-- Go `delete(m, k)`: remove the entries holding key `k` (a Go map holds at
most one). -/
def eraseKey : List (String × JValue) → String → List (String × JValue)
  | [], _ => []
  | p :: rest, k => if p.1 = k then eraseKey rest k else p :: eraseKey rest k

/-- Functional rendering of the in-place `delete(parentMap, lastPart)` in
`hitToFeature`: follow `path` through nested objects and remove key `last`
from the object reached at the end.  Non-objects are left unchanged, matching
the fact that the Go code only ever deletes from a map. -/
def deleteAt : List String → String → JValue → JValue
  | [], last, JValue.obj fields => JValue.obj (eraseKey fields last)
  | k :: ks, last, JValue.obj fields =>
    JValue.obj (fields.map (fun p => if p.1 = k then (p.1, deleteAt ks last p.2) else p))
  | _, _, v => v

/-- Geographic bounding rectangle, the model of `orb.Bound` (a min point and a
max point); accessors follow orb's `Left`, `Right`, `Top`, `Bottom`. -/
structure TileBound where
  minX : Rat
  minY : Rat
  maxX : Rat
  maxY : Rat

/-- orb `Bound.Left()` is the min X coordinate. -/
def TileBound.left (b : TileBound) : Rat := b.minX

/-- orb `Bound.Right()` is the max X coordinate. -/
def TileBound.right (b : TileBound) : Rat := b.maxX

/-- orb `Bound.Top()` is the max Y coordinate. -/
def TileBound.top (b : TileBound) : Rat := b.maxY

/-- orb `Bound.Bottom()` is the min Y coordinate. -/
def TileBound.bottom (b : TileBound) : Rat := b.minY

/-- Embedding of `boundsFilter` (part_000 lines 77-92): the nested `Dict`
literal building the geo_shape envelope filter for the configured geometry
field. -/
def boundsFilter (geometryField : String) (tileBounds : TileBound) : JValue :=
  JValue.obj [("geo_shape", JValue.obj [(geometryField, JValue.obj
    [("shape", JValue.obj
      [("type", JValue.str "envelope"),
       ("coordinates", JValue.arr
         [JValue.arr [JValue.num tileBounds.left, JValue.num tileBounds.top],
          JValue.arr [JValue.num tileBounds.right, JValue.num tileBounds.bottom]])]),
     ("relation", JValue.str "intersects")])])]

/-- Values stored in a feature's property map: JSON values copied from the
document source, the string id, and the aggregate statistics numbers. -/
inductive PVal where
  | json (v : JValue)
  | str (s : String)
  | num (q : Rat)
  | int (n : Int)

/-- Model of `geojson.Properties` (a Go `map[string]interface{}`) as a partial
function from keys to values. -/
def PropMap : Type := String → Option PVal

/-- The empty property map. -/
def noProps : PropMap := fun _ => none

/-- Go map assignment `props[k] = v`. -/
def setProp (ps : PropMap) (k : String) (v : PVal) : PropMap :=
  fun k' => if k' = k then some v else ps k'

/-- Feature produced by the raw-feature (hit) path, generic over the geometry
type `γ` produced by the external GeoJSON decoder. -/
structure RawFeature (γ : Type) where
  id : String
  geom : γ
  props : PropMap

/-- The error value returned by `hitToFeature` when the geometry path prefix
cannot be resolved (`fmt.Errorf("Couldn't find geometry at field: %s", ...)`). -/
inductive HitErr where
  | geometryNotFound (field : String)
  deriving DecidableEq

/-- Possible outcomes of a call to `hitToFeature`: a feature, a returned Go
error, or a Go runtime panic (failed type assertion, or method call on the nil
geometry pointer that `geom, _ := geojson.UnmarshalGeometry(gj)` leaves behind
when decoding fails). -/
inductive HitOutcome (γ : Type) where
  | ok (f : RawFeature γ)
  | err (e : HitErr)
  | panics

/-- Embedding of `hitToFeature` (part_000 lines 177-210).  The document source
is the already-unmarshalled JSON object (Go `map[string]interface{}`); the
external orb geometry decoder (`geojson.UnmarshalGeometry` composed with
`Geometry()`) is abstracted as `decode`, with `none` standing for a decode
error — which the Go code discards (`geom, _ :=`), so the subsequent
`geom.Geometry()` call dereferences a nil pointer and panics.  Reading a
missing key from the parent map yields Go's zero value `nil`, modelled as
`JValue.null`. -/
def hitToFeature {γ : Type} (decode : JValue → Option γ) (geometryField : String)
    (sourceFields : List (String × String)) (hitId : String)
    (source : List (String × JValue)) : HitOutcome γ :=
  let geometryFieldParts := splitDots geometryField
  let lastPart := geometryFieldParts.getLastD ""
  let parentPath := geometryFieldParts.dropLast
  match GetNested (JValue.obj source) parentPath with
  | none => HitOutcome.err (HitErr.geometryNotFound geometryField)
  | some parent =>
    match parent with
    | JValue.obj parentFields =>
      let geometry := (lookupKey parentFields lastPart).getD JValue.null
      let stripped := deleteAt parentPath lastPart (JValue.obj source)
      match decode geometry with
      | none => HitOutcome.panics
      | some g =>
        let props := sourceFields.foldl (fun ps pf =>
          match GetNested stripped (splitDots pf.2) with
          | some val => setProp ps pf.1 (PVal.json val)
          | none => ps) noProps
        HitOutcome.ok ⟨hitId, g, setProp props "id" (PVal.str hitId)⟩
    | _ => HitOutcome.panics

/-- Property map of a hit outcome (empty unless the outcome is a feature);
projection used to state facts about the result of `hitToFeature`. -/
def outcomeProps {γ : Type} : HitOutcome γ → PropMap
  | HitOutcome.ok f => f.props
  | _ => noProps

/-- Whether a hit outcome is a successfully mapped feature. -/
def outcomeIsOk {γ : Type} : HitOutcome γ → Bool
  | HitOutcome.ok _ => true
  | _ => false

/-- Sample geometry decoder recognizing exactly a GeoJSON point object; a
stand-in for the external orb decoder when instantiating theorems about the
abstract `decode` parameter at concrete inputs. -/
def decodePoint : JValue → Option (Rat × Rat)
  | JValue.obj [("type", JValue.str "Point"), ("coordinates", JValue.arr [JValue.num x, JValue.num y])] =>
    some (x, y)
  | _ => none

/-- How a scroll page fetch sequence terminates: `scroll.Do` eventually returns
either `io.EOF` (end of results) or some other error. -/
inductive ScrollEnd (ε : Type) where
  | eof
  | fail (e : ε)

/-- The inner per-page loop of `doGetFeatures` (part_000 lines 165-171): map
each hit of the page through the feature mapper in arrival order, appending to
the accumulated collection; the first mapping error aborts. -/
def mapHitsAcc {η φ ε : Type} (mapper : η → Except ε φ) (fc : List φ) : List η → Except ε (List φ)
  | [] => Except.ok fc
  | h :: hs =>
    match mapper h with
    | Except.error e => Except.error e
    | Except.ok f => mapHitsAcc mapper (fc ++ [f]) hs

/-- Specification-side in-order mapping of a document list: succeeds with the
list of mapped features iff every document maps, otherwise returns the first
mapping error. -/
def mapAll {η φ ε : Type} (mapper : η → Except ε φ) : List η → Except ε (List φ)
  | [] => Except.ok []
  | h :: hs =>
    match mapper h with
    | Except.error e => Except.error e
    | Except.ok f =>
      match mapAll mapper hs with
      | Except.error e => Except.error e
      | Except.ok fs => Except.ok (f :: fs)

/-- Embedding of the scroll loop of `doGetFeatures` (part_000 lines 152-174),
generic over the hit, feature and error types, with the feature mapper
(`hitToFeature`) abstracted.  The backend's behaviour is the trace of pages it
delivers followed by how the scroll terminates.  The result mirrors the Go
return pair `(*geojson.FeatureCollection, error)`: `io.EOF` breaks the loop
and returns the accumulated collection; any other error, including a mapping
error, returns `(nil, err)`. -/
def doGetFeatures {η φ ε : Type} (mapper : η → Except ε φ) (fc : List φ)
    (pages : List (List η)) (fin : ScrollEnd ε) : Option (List φ) × Option ε :=
  match pages with
  | [] =>
    match fin with
    | ScrollEnd.eof => (some fc, none)
    | ScrollEnd.fail e => (none, some e)
  | hits :: rest =>
    match mapHitsAcc mapper fc hits with
    | Except.error e => (none, some e)
    | Except.ok fc2 => doGetFeatures mapper fc2 rest fin

/-- Resource events of the scroll loop: each iteration acquires a timeout
sub-context (`context.WithTimeout`) for its page and must release it
(`scrollCancel`). -/
inductive PageEv where
  | acquire (i : Nat)
  | release (i : Nat)
  deriving DecidableEq

/-- Resource-instrumented embedding of the scroll loop of `doGetFeatures`
(part_000 lines 152-174).  Each iteration `i` (including the final one whose
`scroll.Do` returns `io.EOF` or an error) emits `acquire i`, pushes its cancel
function onto the deferred stack (`defer scrollCancel()`, run LIFO at function
exit), and on normal completion of a page also calls `scrollCancel()`
explicitly (the `release i` event before the next iteration). -/
def doGetFeaturesTraced {η φ ε : Type} (mapper : η → Except ε φ) (fc : List φ)
    (pageNum : Nat) (defers : List Nat) (evs : List PageEv)
    (pages : List (List η)) (fin : ScrollEnd ε) :
    (Option (List φ) × Option ε) × List PageEv :=
  match pages with
  | [] =>
    match fin with
    | ScrollEnd.eof =>
      ((some fc, none), (evs ++ [PageEv.acquire pageNum]) ++ (pageNum :: defers).map PageEv.release)
    | ScrollEnd.fail e =>
      ((none, some e), (evs ++ [PageEv.acquire pageNum]) ++ (pageNum :: defers).map PageEv.release)
  | hits :: rest =>
    match mapHitsAcc mapper fc hits with
    | Except.error e =>
      ((none, some e), (evs ++ [PageEv.acquire pageNum]) ++ (pageNum :: defers).map PageEv.release)
    | Except.ok fc2 =>
      doGetFeaturesTraced mapper fc2 (pageNum + 1) (pageNum :: defers)
        ((evs ++ [PageEv.acquire pageNum]) ++ [PageEv.release pageNum]) rest fin

/-- Outcome of running a Go function that may panic. -/
inductive GoCall (α : Type) where
  | ok (a : α)
  | panicked

/-- Extended statistics reported for one metric in one geohash cell, as decoded
from the aggregation response.  olivere's `AggregationExtendedStatsMetric`
holds `Avg` and `Sum` as `*float64`, which are nil when the response reports
them as JSON null — a cell whose documents carry no value for the metric
(count 0); `Count` is a plain int64. -/
structure StatsResult where
  avg : Option Rat
  sum : Option Rat
  count : Int

/-- One bucket of the geohash-grid aggregation: its key and the named
sub-aggregation results found in it. -/
structure AggBucket where
  key : String
  stats : List (String × StatsResult)

/-- The part of the search response consumed by `doGetAggregates`: the "cells"
geohash aggregation when found. -/
structure AggSearchResult where
  cells : Option (List AggBucket)

/-- Geohash cell bounding box, the model of `geohash.Box` (lat/lng bounds). -/
structure GeoBox where
  minLat : Rat
  maxLat : Rat
  minLng : Rat
  maxLng : Rat

/-- `geohash.Box.Center()`: midpoint latitude. -/
def GeoBox.centerLat (b : GeoBox) : Rat := (b.minLat + b.maxLat) / 2

/-- `geohash.Box.Center()`: midpoint longitude. -/
def GeoBox.centerLng (b : GeoBox) : Rat := (b.minLng + b.maxLng) / 2

/-- Synthetic feature produced by the aggregation path: id is the cell key,
geometry is the point `orb.Point{lng, lat}`. -/
structure AggFeature where
  id : String
  lngLat : Rat × Rat
  props : PropMap

/-- One step of the per-bucket property loop of `doGetAggregates` (part_000
lines 132-139): if the configured aggregation name is found among the bucket's
sub-aggregations, set `name:avg`, `name:sum`, `name:count` from
`*statsAgg.Avg`, `*statsAgg.Sum` and `statsAgg.Count`.  The two dereferences
panic when the pointer is nil, i.e. when the reported statistic is null. -/
def aggStep (bstats : List (String × StatsResult)) (ps : PropMap) (nf : String × String) :
    GoCall PropMap :=
  match lookupKey bstats nf.1 with
  | some st =>
    match st.avg with
    | none => GoCall.panicked
    | some av =>
      match st.sum with
      | none => GoCall.panicked
      | some sm =>
        GoCall.ok (setProp (setProp (setProp ps (nf.1 ++ ":avg") (PVal.num av))
          (nf.1 ++ ":sum") (PVal.num sm)) (nf.1 ++ ":count") (PVal.int st.count))
  | none => GoCall.ok ps

/-- Total restriction of `aggStep`: the properties it builds on runs that meet
no null statistic (a found metric with a null avg or sum contributes nothing
here, whereas `aggStep` panics there); used to describe the non-panicking
executions. -/
def aggStepTotal (bstats : List (String × StatsResult)) (ps : PropMap) (nf : String × String) :
    PropMap :=
  match lookupKey bstats nf.1 with
  | some st =>
    match st.avg with
    | none => ps
    | some av =>
      match st.sum with
      | none => ps
      | some sm =>
        setProp (setProp (setProp ps (nf.1 ++ ":avg") (PVal.num av))
          (nf.1 ++ ":sum") (PVal.num sm)) (nf.1 ++ ":count") (PVal.int st.count)
  | none => ps

/-- A panic in one step of the property loop aborts the remaining steps. -/
def aggAccum (bstats : List (String × StatsResult)) (r : GoCall PropMap)
    (nf : String × String) : GoCall PropMap :=
  match r with
  | GoCall.panicked => GoCall.panicked
  | GoCall.ok ps => aggStep bstats ps nf

/-- The property map built for one bucket by `doGetAggregates` (part_000 lines
132-139): fold the per-metric step over the configured aggregations,
propagating a panic. -/
def bucketProps (aggs : List (String × String)) (bstats : List (String × StatsResult)) :
    GoCall PropMap :=
  aggs.foldl (aggAccum bstats) (GoCall.ok noProps)

/-- One bucket of the response turned into a synthetic feature (part_000 lines
126-140): geometry is the center of the geohash bounding box of the key
(`orb.Point{lng, lat}`), id is the key; a panic while populating the
properties aborts the whole call. -/
def bucketToFeature (bbox : String → GeoBox) (aggs : List (String × String))
    (b : AggBucket) : GoCall AggFeature :=
  match bucketProps aggs b.stats with
  | GoCall.panicked => GoCall.panicked
  | GoCall.ok ps =>
    GoCall.ok { id := b.key
                lngLat := ((bbox b.key).centerLng, (bbox b.key).centerLat)
                props := ps }

/-- The feature `bucketToFeature` produces for a bucket on a run that meets no
null statistic. -/
def bucketFeatureTotal (bbox : String → GeoBox) (aggs : List (String × String))
    (b : AggBucket) : AggFeature :=
  { id := b.key
    lngLat := ((bbox b.key).centerLng, (bbox b.key).centerLat)
    props := aggs.foldl (aggStepTotal b.stats) noProps }

/-- The bucket loop of `doGetAggregates` (part_000 lines 126-141): one feature
appended per bucket, in order; a panic aborts the loop. -/
def collectFeatures (bbox : String → GeoBox) (aggs : List (String × String)) :
    List AggBucket → GoCall (List AggFeature)
  | [] => GoCall.ok []
  | b :: rest =>
    match bucketToFeature bbox aggs b with
    | GoCall.panicked => GoCall.panicked
    | GoCall.ok f =>
      match collectFeatures bbox aggs rest with
      | GoCall.panicked => GoCall.panicked
      | GoCall.ok fs => GoCall.ok (f :: fs)

/-- Embedding of the response-processing part of `doGetAggregates` (part_000
lines 117-143), with the external geohash box decoder abstracted as `bbox` and
the Elasticsearch call's outcome supplied as `resp`.  A search error returns
`(nil, err)`; a missing "cells" aggregation returns the empty collection; one
feature is appended per bucket, and a nil-pointer dereference on a null
statistic in the bucket loop panics the whole call. -/
def doGetAggregates {ε : Type} (bbox : String → GeoBox) (aggs : List (String × String))
    (resp : Except ε AggSearchResult) : GoCall (Option (List AggFeature) × Option ε) :=
  match resp with
  | Except.error e => GoCall.ok (none, some e)
  | Except.ok results =>
    match results.cells with
    | none => GoCall.ok (some [], none)
    | some buckets =>
      match collectFeatures bbox aggs buckets with
      | GoCall.panicked => GoCall.panicked
      | GoCall.ok fs => GoCall.ok (some fs, none)

/-- The two retrieval modes behind `GetFeatures`. -/
inductive RetrievalPath where
  | aggregation
  | rawFeatures
  deriving DecidableEq

/-- Model of the `ElasticsearchSource` configuration fields that drive
retrieval.  `aggs` is a Go map that may be nil (`none`) or non-nil
(`some entries`, possibly empty): Go distinguishes a nil map from an empty
one, and `GetFeatures` tests `e.Aggs != nil`. -/
structure EsSourceCfg where
  index : String
  geometryField : String
  sourceFields : List (String × String)
  aggs : Option (List (String × String))

/-- Embedding of the dispatch in `GetFeatures` (part_000 lines 94-102):
`if e.Aggs != nil` takes the aggregation path, else the raw-feature path. -/
def GetFeaturesPath (e : EsSourceCfg) : RetrievalPath :=
  if e.aggs.isSome then RetrievalPath.aggregation else RetrievalPath.rawFeatures

/-- Number of named statistical aggregations the configuration declares (the
entry count of the `aggs` map; a nil map declares zero). -/
def declaredAggCount (e : EsSourceCfg) : Nat :=
  (e.aggs.getD []).length

/-- Model of `maptile.Tile`. -/
structure MapTile where
  z : Nat
  x : Nat
  y : Nat

/-- A value stored in the request context: either a `maptile.Tile` or a value
of some other dynamic type. -/
inductive CtxVal where
  | tile (t : MapTile)
  | nonTile

/-- Model of `context.Context` value lookup: `ctx.Value(key)`. -/
def TileCtx : Type := String → Option CtxVal

/-- The unchecked type assertion `ctx.Value("tile").(maptile.Tile)` succeeds
exactly when the context carries a `maptile.Tile` under key "tile". -/
def ctxTile (ctx : TileCtx) : Option MapTile :=
  match ctx "tile" with
  | some (CtxVal.tile t) => some t
  | _ => none

/-- Embedding of `doGetFeatures` from its entry (part_000 lines 146-153): the
tile is read from the context by an unchecked type assertion before the query
is built and before the scroll is issued; the Boolean records whether any
backend call was made. -/
def doGetFeaturesFull {η φ ε : Type} (ctx : TileCtx) (tileBound : MapTile → TileBound)
    (geometryField : String) (mapper : η → Except ε φ)
    (pages : List (List η)) (fin : ScrollEnd ε) :
    GoCall (Option (List φ) × Option ε) × Bool :=
  match ctxTile ctx with
  | none => (GoCall.panicked, false)
  | some t =>
    let _query := boundsFilter geometryField (tileBound t)
    (GoCall.ok (doGetFeatures mapper [] pages fin), true)

/-- Embedding of `doGetAggregates` from its entry (part_000 lines 104-120):
the tile is read from the context by an unchecked type assertion before the
query is built and before the search is issued; the Boolean records whether
any backend call was made. -/
def doGetAggregatesFull {ε : Type} (ctx : TileCtx) (tileBound : MapTile → TileBound)
    (geometryField : String) (bbox : String → GeoBox) (aggs : List (String × String))
    (resp : Except ε AggSearchResult) :
    GoCall (Option (List AggFeature) × Option ε) × Bool :=
  match ctxTile ctx with
  | none => (GoCall.panicked, false)
  | some t =>
    let _query := boundsFilter geometryField (tileBound t)
    (doGetAggregates bbox aggs resp, true)

/-- Errors of `CreateLayer`: the two configuration errors declared in
`layer.go`, the unreachable fallthrough error, and a backend constructor
error propagated as-is (`LayerErr.backend e` is the embedding of the Go
`error` value `e` into this function's error type, carrying `e` unmodified). -/
inductive LayerErr (ε : Type) where
  | multipleSources
  | noSources
  | invalidConfig (layerName : String)
  | backend (e : ε)

/-- Model of `LayerConfig` with its `SourceConfig`: two optional backend
variant configurations. -/
structure LayerCfg (εc πc : Type) where
  name : String
  description : String
  minzoom : Int
  maxzoom : Int
  es : Option εc
  pg : Option πc

/-- Model of a hydrated `Layer`. -/
structure TLayer (σ : Type) where
  name : String
  description : String
  minzoom : Int
  maxzoom : Int
  source : σ

/-- Embedding of `CreateLayer` (layer.go lines 54-85), with the two backend
constructors (`NewElasticsearchSource`, `NewPostGISSource`) abstracted as
`mkES` and `mkPG`. -/
def CreateLayer {εc πc ε σ : Type} (mkES : εc → Except ε σ) (mkPG : πc → Except ε σ)
    (cfg : LayerCfg εc πc) : Except (LayerErr ε) (TLayer σ) :=
  if cfg.es.isSome && cfg.pg.isSome then Except.error LayerErr.multipleSources
  else if cfg.es.isNone && cfg.pg.isNone then Except.error LayerErr.noSources
  else
    match cfg.es with
    | some c =>
      match mkES c with
      | Except.error e => Except.error (LayerErr.backend e)
      | Except.ok s => Except.ok ⟨cfg.name, cfg.description, cfg.minzoom, cfg.maxzoom, s⟩
    | none =>
      match cfg.pg with
      | some c =>
        match mkPG c with
        | Except.error e => Except.error (LayerErr.backend e)
        | Except.ok s => Except.ok ⟨cfg.name, cfg.description, cfg.minzoom, cfg.maxzoom, s⟩
      | none => Except.error (LayerErr.invalidConfig cfg.name)

/-! ## Theorems -/

/-- C1: For every bounding rectangle B, the spatial filter built by
`boundsFilter` is a geo_shape intersection predicate over the configured
geometry field whose envelope coordinates equal exactly
`[[B.left, B.top], [B.right, B.bottom]]` and whose relation is "intersects". -/
theorem boundsFilter_spec (field : String) (b : TileBound) :
    GetNested (boundsFilter field b) ["geo_shape", field, "shape", "type"] =
      some (JValue.str "envelope") ∧
    GetNested (boundsFilter field b) ["geo_shape", field, "shape", "coordinates"] =
      some (JValue.arr [JValue.arr [JValue.num b.left, JValue.num b.top],
        JValue.arr [JValue.num b.right, JValue.num b.bottom]]) ∧
    GetNested (boundsFilter field b) ["geo_shape", field, "relation"] =
      some (JValue.str "intersects") := by
  refine ⟨?_, ?_, ?_⟩ <;> simp [boundsFilter, GetNested, lookupKey]

/-- C7: `GetNested` with an empty path returns the current value as found;
otherwise it resolves the remaining path in the mapping entry for the first
segment when the value is a mapping containing that key, and returns not-found
(without error) as soon as a segment is absent or the value is not a mapping;
in particular path ["a","b","c"] in `{"a":{"b":{"c":5}}}` yields `(5, found)`
and path ["a","b"] in `{"a":1}` yields not-found. -/
theorem GetNested_spec :
    (∀ v : JValue, GetNested v [] = some v) ∧
    (∀ (fields : List (String × JValue)) (k : String) (ks : List String) (v : JValue),
      lookupKey fields k = some v → GetNested (JValue.obj fields) (k :: ks) = GetNested v ks) ∧
    (∀ (fields : List (String × JValue)) (k : String) (ks : List String),
      lookupKey fields k = none → GetNested (JValue.obj fields) (k :: ks) = none) ∧
    (∀ (v : JValue) (k : String) (ks : List String),
      (∀ fields, v ≠ JValue.obj fields) → GetNested v (k :: ks) = none) ∧
    GetNested (JValue.obj [("a", JValue.obj [("b", JValue.obj [("c", JValue.num 5)])])])
      ["a", "b", "c"] = some (JValue.num 5) ∧
    GetNested (JValue.obj [("a", JValue.num 1)]) ["a", "b"] = none := by
  refine ⟨?_, ?_, ?_, ?_, ?_, ?_⟩
  · intro v
    cases v <;> rfl
  · intro fields k ks v h
    simp [GetNested, h]
  · intro fields k ks h
    simp [GetNested, h]
  · intro v k ks h
    cases v with
    | obj fields => exact absurd rfl (h fields)
    | null => rfl
    | bool b => rfl
    | num q => rfl
    | str s => rfl
    | arr xs => rfl
  · rfl
  · rfl

/-- C7 witness: the second clause of `GetNested_spec` applied to a concrete
object and key. -/
theorem GetNested_spec_witness :
    lookupKey [("x", JValue.num 2)] "x" = some (JValue.num 2) ∧
    GetNested (JValue.obj [("x", JValue.num 2)]) ["x", "y"] = GetNested (JValue.num 2) ["y"] :=
  ⟨rfl, GetNested_spec.2.1 [("x", JValue.num 2)] "x" ["y"] (JValue.num 2) rfl⟩

/-- C6 counterexample: a source whose `aggs` map is non-nil but empty declares
zero named aggregations, yet `GetFeatures` dispatches to the aggregation path,
refuting "aggregation path iff one or more named aggregations declared". -/
theorem getFeatures_dispatch_counterexample :
    ¬ ((GetFeaturesPath ⟨"idx", "g", [], some []⟩ = RetrievalPath.aggregation) ↔
        1 ≤ declaredAggCount ⟨"idx", "g", [], some []⟩) := by
  decide

/-- C6 amended: `GetFeatures` dispatches to the aggregation path if and only
if the aggregation map is configured (non-nil), even when it is empty;
otherwise it dispatches to the raw-feature paginated path. -/
theorem getFeatures_dispatch_amended (e : EsSourceCfg) :
    GetFeaturesPath e = RetrievalPath.aggregation ↔ e.aggs.isSome := by
  cases h : e.aggs <;> simp [GetFeaturesPath, h]

/-- C8: `CreateLayer` fails with `NoSourcesErr` when neither backend variant is
set, with `MultipleSourcesErr` when both are set, and with exactly one variant
set either succeeds with a layer whose source is the constructed backend or
propagates the backend constructor's error unmodified. -/
theorem CreateLayer_spec {εc πc ε σ : Type} (mkES : εc → Except ε σ) (mkPG : πc → Except ε σ)
    (cfg : LayerCfg εc πc) :
    (cfg.es = none → cfg.pg = none →
      CreateLayer mkES mkPG cfg = Except.error LayerErr.noSources) ∧
    (∀ a b, cfg.es = some a → cfg.pg = some b →
      CreateLayer mkES mkPG cfg = Except.error LayerErr.multipleSources) ∧
    (∀ a, cfg.es = some a → cfg.pg = none →
      CreateLayer mkES mkPG cfg =
        (match mkES a with
         | Except.error e => Except.error (LayerErr.backend e)
         | Except.ok s => Except.ok ⟨cfg.name, cfg.description, cfg.minzoom, cfg.maxzoom, s⟩)) ∧
    (∀ b, cfg.es = none → cfg.pg = some b →
      CreateLayer mkES mkPG cfg =
        (match mkPG b with
         | Except.error e => Except.error (LayerErr.backend e)
         | Except.ok s => Except.ok ⟨cfg.name, cfg.description, cfg.minzoom, cfg.maxzoom, s⟩)) := by
  refine ⟨?_, ?_, ?_, ?_⟩
  · intro h1 h2
    simp [CreateLayer, h1, h2]
  · intro a b h1 h2
    simp [CreateLayer, h1, h2]
  · intro a h1 h2
    simp [CreateLayer, h1, h2]
  · intro b h1 h2
    simp [CreateLayer, h1, h2]

/-- C8 witness: with only the Elasticsearch variant set and a successful
constructor, `CreateLayer` succeeds and exposes the constructed source. -/
theorem CreateLayer_spec_witness :
    CreateLayer (fun _ : Unit => (Except.ok 3 : Except Nat Nat))
        (fun _ : Unit => Except.error 0) ⟨"n", "d", 0, 22, some (), none⟩ =
      Except.ok ⟨"n", "d", 0, 22, 3⟩ :=
  (CreateLayer_spec (fun _ : Unit => (Except.ok 3 : Except Nat Nat))
    (fun _ : Unit => Except.error 0) ⟨"n", "d", 0, 22, some (), none⟩).2.2.1 () rfl rfl

/-- C10: both retrieval paths read the tile by an unchecked type assertion on
the context value under key "tile"; on every call whose context does not carry
a `maptile.Tile` there, `doGetFeatures` and `doGetAggregates` panic before
issuing any backend call. -/
theorem ctx_tile_precondition {η φ ε : Type} (ctx : TileCtx) (tileBound : MapTile → TileBound)
    (geometryField : String) (mapper : η → Except ε φ) (pages : List (List η))
    (fin : ScrollEnd ε) (bbox : String → GeoBox) (aggs : List (String × String))
    (resp : Except ε AggSearchResult) (h : ctxTile ctx = none) :
    doGetFeaturesFull ctx tileBound geometryField mapper pages fin = (GoCall.panicked, false) ∧
    doGetAggregatesFull ctx tileBound geometryField bbox aggs resp = (GoCall.panicked, false) := by
  constructor <;> simp [doGetFeaturesFull, doGetAggregatesFull, h]

/-- C10 witness: a context carrying nothing under "tile" makes both paths
panic without a backend call. -/
theorem ctx_tile_precondition_witness :
    ctxTile (fun _ => none) = none ∧
    (doGetFeaturesFull (fun _ => none) (fun _ => ⟨0, 0, 0, 0⟩) "g"
        (fun n : Nat => (Except.ok n : Except Nat Nat)) [] ScrollEnd.eof =
      (GoCall.panicked, false) ∧
    doGetAggregatesFull (fun _ => none) (fun _ => ⟨0, 0, 0, 0⟩) "g"
        (fun _ => ⟨0, 0, 0, 0⟩) [] (Except.ok ⟨none⟩ : Except Nat AggSearchResult) =
      (GoCall.panicked, false)) :=
  ⟨rfl, ctx_tile_precondition (fun _ => none) (fun _ => ⟨0, 0, 0, 0⟩) "g"
    (fun n : Nat => (Except.ok n : Except Nat Nat)) [] ScrollEnd.eof
    (fun _ => ⟨0, 0, 0, 0⟩) [] (Except.ok ⟨none⟩) rfl⟩

/-- The per-page mapping accumulates onto the collection built so far. -/
theorem mapHitsAcc_eq {η φ ε : Type} (mapper : η → Except ε φ) (fc : List φ) (hs : List η) :
    mapHitsAcc mapper fc hs = (mapAll mapper hs).map (fun fs => fc ++ fs) := by
  induction hs generalizing fc with
  | nil => simp [mapHitsAcc, mapAll, Except.map]
  | cons h t ih =>
    cases hm : mapper h with
    | error e => simp [mapHitsAcc, mapAll, hm, Except.map]
    | ok f =>
      simp only [mapHitsAcc, mapAll, hm]
      rw [ih]
      cases mapAll mapper t <;> simp [Except.map]

/-- In-order mapping splits over list append. -/
theorem mapAll_append {η φ ε : Type} (mapper : η → Except ε φ) (as bs : List η) :
    mapAll mapper (as ++ bs) =
      (match mapAll mapper as with
       | Except.error e => Except.error e
       | Except.ok fs => (mapAll mapper bs).map (fun gs => fs ++ gs)) := by
  induction as with
  | nil =>
    simp only [List.nil_append, mapAll]
    cases mapAll mapper bs <;> simp [Except.map]
  | cons h t ih =>
    cases hm : mapper h with
    | error e => simp [mapAll, hm]
    | ok f =>
      simp only [List.cons_append, mapAll, hm, List.append_eq]
      rw [ih]
      cases mapAll mapper t with
      | error e => rfl
      | ok fs => cases mapAll mapper bs <;> simp [Except.map]

/-- A successful in-order mapping yields one output per input. -/
theorem mapAll_length {η φ ε : Type} (mapper : η → Except ε φ) (hs : List η) (fs : List φ)
    (h : mapAll mapper hs = Except.ok fs) : fs.length = hs.length := by
  induction hs generalizing fs with
  | nil =>
    simp only [mapAll] at h
    cases h
    rfl
  | cons a t ih =>
    simp only [mapAll] at h
    cases ha : mapper a with
    | error e => rw [ha] at h; cases h
    | ok f =>
      rw [ha] at h
      cases ht : mapAll mapper t with
      | error e => rw [ht] at h; cases h
      | ok gs =>
        rw [ht] at h
        cases h
        simp [ih gs ht]

/-- Closed form of the scroll loop: the result is determined by the in-order
mapping of all documents of all pages and by how the scroll terminates. -/
theorem doGetFeatures_closed {η φ ε : Type} (mapper : η → Except ε φ) (fc : List φ)
    (pages : List (List η)) (fin : ScrollEnd ε) :
    doGetFeatures mapper fc pages fin =
      (match mapAll mapper pages.flatten with
       | Except.error e => (none, some e)
       | Except.ok fs =>
         match fin with
         | ScrollEnd.eof => (some (fc ++ fs), none)
         | ScrollEnd.fail e => (none, some e)) := by
  induction pages generalizing fc with
  | nil =>
    simp only [doGetFeatures, List.flatten_nil, mapAll]
    cases fin <;> simp
  | cons hits rest ih =>
    simp only [doGetFeatures, List.flatten_cons]
    rw [mapHitsAcc_eq, mapAll_append]
    cases h1 : mapAll mapper hits with
    | error e => simp [Except.map]
    | ok fs1 =>
      simp only [Except.map]
      rw [ih]
      cases h2 : mapAll mapper rest.flatten with
      | error e => rfl
      | ok fs2 => cases fin <;> simp

/-- C2: the raw-feature retrieval stops on the end-of-results signal and
returns the accumulated collection with one feature per retrieved document
mapped in arrival order; on any other page-fetch error, or on a mapping
failure for any single document, it returns that error with a nil collection —
never a prefix of the results. -/
theorem doGetFeatures_spec {η φ ε : Type} (mapper : η → Except ε φ)
    (pages : List (List η)) (fin : ScrollEnd ε) :
    (∀ fs, mapAll mapper pages.flatten = Except.ok fs →
      doGetFeatures mapper [] pages ScrollEnd.eof = (some fs, none) ∧
      fs.length = pages.flatten.length) ∧
    (∀ fs e, mapAll mapper pages.flatten = Except.ok fs →
      doGetFeatures mapper [] pages (ScrollEnd.fail e) = (none, some e)) ∧
    (∀ e, mapAll mapper pages.flatten = Except.error e →
      doGetFeatures mapper [] pages fin = (none, some e)) ∧
    (∀ e, (doGetFeatures mapper [] pages fin).2 = some e →
      (doGetFeatures mapper [] pages fin).1 = none) := by
  refine ⟨?_, ?_, ?_, ?_⟩
  · intro fs h
    rw [doGetFeatures_closed, h]
    exact ⟨by simp, mapAll_length mapper pages.flatten fs h⟩
  · intro fs e h
    rw [doGetFeatures_closed, h]
  · intro e h
    rw [doGetFeatures_closed, h]
  · intro e
    rw [doGetFeatures_closed]
    cases mapAll mapper pages.flatten with
    | error e2 => intro _; rfl
    | ok fs =>
      cases fin with
      | eof => intro h; cases h
      | fail e2 => intro _; rfl

/-- C2 witness: two pages of documents followed by end-of-results yield the
in-order collection. -/
theorem doGetFeatures_spec_witness :
    doGetFeatures (fun n : Nat => (Except.ok n : Except Nat Nat)) [] [[1, 2], [3]]
      ScrollEnd.eof = (some [1, 2, 3], none) :=
  ((doGetFeatures_spec (fun n : Nat => (Except.ok n : Except Nat Nat)) [[1, 2], [3]]
    ScrollEnd.eof).1 [1, 2, 3] rfl).1

/-- A trace ending in a function return releases every acquired page context:
membership reasoning for the terminal event list shared by all exit paths. -/
theorem terminal_trace_releases (evs : List PageEv) (defers : List Nat) (n j : Nat)
    (hinv : ∀ i, PageEv.acquire i ∈ evs → PageEv.release i ∈ evs ∨ i ∈ defers)
    (hj : PageEv.acquire j ∈ (evs ++ [PageEv.acquire n]) ++ (n :: defers).map PageEv.release) :
    PageEv.release j ∈ (evs ++ [PageEv.acquire n]) ++ (n :: defers).map PageEv.release := by
  have hrel : ∀ i, i ∈ n :: defers → PageEv.release i ∈ (n :: defers).map PageEv.release :=
    fun i hi => List.mem_map.mpr ⟨i, hi, rfl⟩
  rcases List.mem_append.mp hj with h1 | h2
  · rcases List.mem_append.mp h1 with ha | hb
    · rcases hinv j ha with hc | hc
      · exact List.mem_append.mpr (Or.inl (List.mem_append.mpr (Or.inl hc)))
      · exact List.mem_append.mpr (Or.inr (hrel j (List.mem_cons_of_mem n hc)))
    · have hjn : j = n := by
        have he := List.mem_singleton.mp hb
        injection he
      exact List.mem_append.mpr (Or.inr (hrel j (by rw [hjn]; exact List.mem_cons_self n defers)))
  · rcases List.mem_map.mp h2 with ⟨i, _, hi⟩
    exact PageEv.noConfusion hi

/-- Invariant-carrying form of the release property for the instrumented
scroll loop. -/
theorem traced_release_invariant {η φ ε : Type} (mapper : η → Except ε φ)
    (pages : List (List η)) (fin : ScrollEnd ε) :
    ∀ (fc : List φ) (n : Nat) (defers : List Nat) (evs : List PageEv),
      (∀ i, PageEv.acquire i ∈ evs → PageEv.release i ∈ evs ∨ i ∈ defers) →
      ∀ j, PageEv.acquire j ∈ (doGetFeaturesTraced mapper fc n defers evs pages fin).2 →
        PageEv.release j ∈ (doGetFeaturesTraced mapper fc n defers evs pages fin).2 := by
  induction pages with
  | nil =>
    intro fc n defers evs hinv j hj
    cases fin with
    | eof => exact terminal_trace_releases evs defers n j hinv hj
    | fail e => exact terminal_trace_releases evs defers n j hinv hj
  | cons hits rest ih =>
    intro fc n defers evs hinv j hj
    cases hm : mapHitsAcc mapper fc hits with
    | error e =>
      simp only [doGetFeaturesTraced, hm] at hj ⊢
      exact terminal_trace_releases evs defers n j hinv hj
    | ok fc2 =>
      simp only [doGetFeaturesTraced, hm] at hj ⊢
      refine ih fc2 (n + 1) (n :: defers) ((evs ++ [PageEv.acquire n]) ++ [PageEv.release n]) ?_ j hj
      intro i hi
      rcases List.mem_append.mp hi with hi1 | hi2
      · rcases List.mem_append.mp hi1 with ha | hb
        · rcases hinv i ha with h2 | h2
          · exact Or.inl (List.mem_append.mpr (Or.inl (List.mem_append.mpr (Or.inl h2))))
          · exact Or.inr (List.mem_cons_of_mem n h2)
        · have hin : i = n := by
            have he := List.mem_singleton.mp hb
            injection he
          refine Or.inl (List.mem_append.mpr (Or.inr ?_))
          rw [hin]
          exact List.mem_singleton.mpr rfl
      · exact absurd (List.mem_singleton.mp hi2) (fun he => PageEv.noConfusion he)

/-- C9: in the raw-feature retrieval loop, every per-page timeout sub-context
acquired for a page is released on every exit path — normal page completion
(the explicit scrollCancel call), end-of-results, or error (the deferred
cancels run at function exit) — so no retrieval leaks a page's cursor
resource. -/
theorem scroll_cursor_release {η φ ε : Type} (mapper : η → Except ε φ)
    (pages : List (List η)) (fin : ScrollEnd ε) (j : Nat)
    (hj : PageEv.acquire j ∈ (doGetFeaturesTraced mapper [] 0 [] [] pages fin).2) :
    PageEv.release j ∈ (doGetFeaturesTraced mapper [] 0 [] [] pages fin).2 :=
  traced_release_invariant mapper pages fin [] 0 [] [] (by simp) j hj

/-- C9 witness: a one-page retrieval ending in end-of-results acquires page 0
and releases it. -/
theorem scroll_cursor_release_witness :
    PageEv.acquire 0 ∈
      (doGetFeaturesTraced (fun n : Nat => (Except.ok n : Except Nat Nat)) [] 0 [] [] [[5]]
        ScrollEnd.eof).2 ∧
    PageEv.release 0 ∈
      (doGetFeaturesTraced (fun n : Nat => (Except.ok n : Except Nat Nat)) [] 0 [] [] [[5]]
        ScrollEnd.eof).2 :=
  ⟨by decide, scroll_cursor_release (fun n : Nat => (Except.ok n : Except Nat Nat)) [[5]]
    ScrollEnd.eof 0 (by decide)⟩

/-- C3 (code-bug evidence): where the claim and spec require `hitToFeature` to
return an error, the code does not.  A geometry value that fails to decode
makes `hitToFeature` panic (the decode error is discarded by
`geom, _ := geojson.UnmarshalGeometry(gj)` and the nil result dereferenced)
instead of returning a decode error; and a geometry path whose prefix resolves
to a non-mapping panics on the unchecked `parent.(map[string]interface{})`
type assertion instead of returning the field-not-found error. -/
theorem hitToFeature_failure_modes {γ : Type} (decode : JValue → Option γ)
    (hdec : decode (JValue.num 0) = none) :
    hitToFeature decode "g" [] "doc1" [("g", JValue.num 0)] = HitOutcome.panics ∧
    hitToFeature decode "a.b" [] "doc1" [("a", JValue.num 1)] = HitOutcome.panics := by
  constructor
  · have key : hitToFeature decode "g" [] "doc1" [("g", JValue.num 0)] =
        (match decode (JValue.num 0) with
         | none => HitOutcome.panics
         | some g => HitOutcome.ok ⟨"doc1", g, setProp noProps "id" (PVal.str "doc1")⟩) := rfl
    rw [key, hdec]
  · rfl

/-- C3 witness: instantiating the abstract decoder with one that rejects the
number `0` exhibits both panics concretely. -/
theorem hitToFeature_failure_modes_witness :
    ((fun _ : JValue => (none : Option Unit)) (JValue.num 0) = none) ∧
    (hitToFeature (fun _ : JValue => (none : Option Unit)) "g" [] "doc1"
        [("g", JValue.num 0)] = HitOutcome.panics ∧
      hitToFeature (fun _ : JValue => (none : Option Unit)) "a.b" [] "doc1"
        [("a", JValue.num 1)] = HitOutcome.panics) :=
  ⟨rfl, hitToFeature_failure_modes (fun _ : JValue => (none : Option Unit)) rfl⟩

/-- Looking up a key in a map from which that key was deleted fails. -/
theorem lookup_eraseKey (fields : List (String × JValue)) (last : String) :
    lookupKey (eraseKey fields last) last = none := by
  induction fields with
  | nil => rfl
  | cons p rest ih =>
    obtain ⟨a, b⟩ := p
    by_cases h : a = last
    · simpa [eraseKey, h] using ih
    · simp [eraseKey, h, lookupKey, ih]

/-- Updating the values of the entries holding key `k` commutes with looking
up `k` (first match). -/
theorem lookup_map_update (fields : List (String × JValue)) (k : String) (g : JValue → JValue) :
    lookupKey (fields.map (fun p => if p.1 = k then (p.1, g p.2) else p)) k =
      (lookupKey fields k).map g := by
  induction fields with
  | nil => rfl
  | cons p rest ih =>
    obtain ⟨a, b⟩ := p
    simp only [List.map_cons]
    by_cases h : a = k
    · subst h
      rw [if_pos (show ((a : String), b).1 = a from rfl)]
      simp [lookupKey]
    · rw [if_neg (show ¬((a, b).1 = k) from h)]
      simp only [lookupKey]
      rw [if_neg h, if_neg h]
      exact ih

/-- After deleting key `last` from the object reached by `path`, the full path
`path ++ [last]` no longer resolves. -/
theorem GetNested_deleteAt_none (path : List String) (last : String) :
    ∀ (v : JValue) (parentFields : List (String × JValue)),
      GetNested v path = some (JValue.obj parentFields) →
      GetNested (deleteAt path last v) (path ++ [last]) = none := by
  induction path with
  | nil =>
    intro v pf h
    cases v with
    | obj fields =>
      simp only [deleteAt, List.nil_append]
      simp [GetNested, lookup_eraseKey]
    | null => exact absurd h (by simp [GetNested])
    | bool b => exact absurd h (by simp [GetNested])
    | num q => exact absurd h (by simp [GetNested])
    | str s => exact absurd h (by simp [GetNested])
    | arr xs => exact absurd h (by simp [GetNested])
  | cons k ks ih =>
    intro v pf h
    cases v with
    | obj fields =>
      cases hl : lookupKey fields k with
      | none =>
        rw [show GetNested (JValue.obj fields) (k :: ks) =
          (match lookupKey fields k with
           | some v2 => GetNested v2 ks
           | none => none) from rfl, hl] at h
        exact Option.noConfusion h
      | some v2 =>
        rw [show GetNested (JValue.obj fields) (k :: ks) =
          (match lookupKey fields k with
           | some v2 => GetNested v2 ks
           | none => none) from rfl, hl] at h
        simp only [deleteAt, List.cons_append]
        have hm := lookup_map_update fields k (fun w => deleteAt ks last w)
        rw [hl] at hm
        have hm2 : lookupKey (fields.map
            (fun p => if p.1 = k then (p.1, deleteAt ks last p.2) else p)) k =
            some (deleteAt ks last v2) := hm
        rw [show GetNested (JValue.obj (fields.map
            (fun p => if p.1 = k then (p.1, deleteAt ks last p.2) else p)))
            (k :: (ks ++ [last])) =
          (match lookupKey (fields.map
              (fun p => if p.1 = k then (p.1, deleteAt ks last p.2) else p)) k with
           | some v2 => GetNested v2 (ks ++ [last])
           | none => none) from rfl, hm2]
        exact ih v2 pf h
    | null => exact absurd h (by simp [GetNested])
    | bool b => exact absurd h (by simp [GetNested])
    | num q => exact absurd h (by simp [GetNested])
    | str s => exact absurd h (by simp [GetNested])
    | arr xs => exact absurd h (by simp [GetNested])

/-- The dot-splitting helper never returns an empty list. -/
theorem splitDotsAux_ne_nil (cs : List Char) : ∀ acc, splitDotsAux cs acc ≠ [] := by
  induction cs with
  | nil =>
    intro acc
    simp [splitDotsAux]
  | cons c cs ih =>
    intro acc
    simp only [splitDotsAux]
    by_cases h : c = '.'
    · simp [h]
    · simp [h, ih]

/-- `splitDots` never returns an empty list (Go `strings.Split` never does). -/
theorem splitDots_ne_nil (s : String) : splitDots s ≠ [] :=
  splitDotsAux_ne_nil s.data []

/-- A nonempty list is its dropLast followed by its last element. -/
theorem dropLast_append_getLastD {α : Type} (l : List α) (d : α) (h : l ≠ []) :
    l.dropLast ++ [l.getLastD d] = l := by
  induction l with
  | nil => exact absurd rfl h
  | cons a t ih =>
    cases t with
    | nil => rfl
    | cons b t2 =>
      have ht : b :: t2 ≠ [] := by simp
      calc (a :: b :: t2).dropLast ++ [(a :: b :: t2).getLastD d]
          = a :: ((b :: t2).dropLast ++ [(b :: t2).getLastD d]) := rfl
        _ = a :: (b :: t2) := by rw [ih ht]

/-- With unique property names, two entries of the source-field mapping with
the same name carry the same path. -/
theorem nodup_keys_eq {α : Type} (l : List (String × α)) (hnd : (l.map Prod.fst).Nodup)
    (k : String) (v1 v2 : α) (h1 : (k, v1) ∈ l) (h2 : (k, v2) ∈ l) : v1 = v2 := by
  induction l with
  | nil => cases h1
  | cons e rest ih =>
    simp only [List.map_cons, List.nodup_cons] at hnd
    rcases List.mem_cons.mp h1 with he1 | he1 <;> rcases List.mem_cons.mp h2 with he2 | he2
    · rw [← he1] at he2
      injection he2 with _ hv
      exact hv.symm
    · exfalso
      apply hnd.1
      rw [← he1]
      exact List.mem_map.mpr ⟨(k, v2), he2, rfl⟩
    · exfalso
      apply hnd.1
      rw [← he2]
      exact List.mem_map.mpr ⟨(k, v1), he1, rfl⟩
    · exact ih hnd.2 he1 he2

/-- The property-population fold of `hitToFeature` never sets a property all of
whose configured paths are unresolvable in the stripped document. -/
theorem foldProps_not_set (stripped : JValue) (sf : List (String × String)) (prop : String)
    (hentry : ∀ pth, (prop, pth) ∈ sf → GetNested stripped (splitDots pth) = none) :
    ∀ ps : PropMap, ps prop = none →
      (sf.foldl (fun ps pf =>
        match GetNested stripped (splitDots pf.2) with
        | some val => setProp ps pf.1 (PVal.json val)
        | none => ps) ps) prop = none := by
  induction sf with
  | nil =>
    intro ps h
    exact h
  | cons e rest ih =>
    intro ps h
    simp only [List.foldl_cons]
    apply ih (fun pth hm => hentry pth (List.mem_cons_of_mem e hm))
    by_cases hk : e.1 = prop
    · have hge : GetNested stripped (splitDots e.2) = none := by
        apply hentry e.2
        have he : (prop, e.2) = e := by
          rw [← hk]
        rw [he]
        exact List.mem_cons_self e rest
      rw [hge]
      exact h
    · cases hg : GetNested stripped (splitDots e.2) with
      | none => exact h
      | some val =>
        simp only [setProp]
        rw [if_neg (fun hpe => hk hpe.symm)]
        exact h

/-- C5 counterexample: the claim "the feature's property mapping does not
contain the configured geometry field" is false as stated: with geometry
field "g" and a configured property named "g" mapped to the different path
"x", `hitToFeature` succeeds and the feature's properties contain the key
"g" (with the value found at "x"). -/
theorem hitToFeature_geomkey_counterexample :
    outcomeIsOk (hitToFeature decodePoint "g" [("g", "x")] "f1"
      [("g", JValue.obj [("type", JValue.str "Point"),
          ("coordinates", JValue.arr [JValue.num 0, JValue.num 0])]),
       ("x", JValue.num 5)]) = true ∧
    outcomeProps (hitToFeature decodePoint "g" [("g", "x")] "f1"
      [("g", JValue.obj [("type", JValue.str "Point"),
          ("coordinates", JValue.arr [JValue.num 0, JValue.num 0])]),
       ("x", JValue.num 5)]) "g" = some (PVal.json (JValue.num 5)) :=
  ⟨rfl, rfl⟩

/-- C5 amended: for every feature returned by the raw-feature path, the
geometry value is deleted from its parent container before property mapping,
so the geometry field path no longer resolves in the stripped document and no
property is populated from it: any configured property whose path is exactly
the geometry field (and whose name is not the always-set "id") is absent from
the feature's properties.  (The geometry field's name can still appear as a
property key when a configured property of that name maps to a different
path.) -/
theorem hitToFeature_strips_geometry {γ : Type} (decode : JValue → Option γ)
    (gf : String) (sf : List (String × String)) (hitId : String)
    (source : List (String × JValue)) (f : RawFeature γ)
    (hok : hitToFeature decode gf sf hitId source = HitOutcome.ok f)
    (hnd : (sf.map Prod.fst).Nodup) :
    GetNested (deleteAt (splitDots gf).dropLast ((splitDots gf).getLastD "") (JValue.obj source))
      (splitDots gf) = none ∧
    ∀ prop, (prop, gf) ∈ sf → prop ≠ "id" → f.props prop = none := by
  simp only [hitToFeature] at hok
  cases hp : GetNested (JValue.obj source) (splitDots gf).dropLast with
  | none =>
    rw [hp] at hok
    exact absurd hok (by simp)
  | some parent =>
    rw [hp] at hok
    dsimp only at hok
    cases parent with
    | obj parentFields =>
      dsimp only at hok
      have hsplit : (splitDots gf).dropLast ++ [(splitDots gf).getLastD ""] = splitDots gf :=
        dropLast_append_getLastD _ _ (splitDots_ne_nil gf)
      have hstrip : GetNested (deleteAt (splitDots gf).dropLast ((splitDots gf).getLastD "")
          (JValue.obj source)) (splitDots gf) = none := by
        have hdel := GetNested_deleteAt_none (splitDots gf).dropLast ((splitDots gf).getLastD "")
          (JValue.obj source) parentFields hp
        rwa [hsplit] at hdel
      refine ⟨hstrip, ?_⟩
      cases hd : decode ((lookupKey parentFields ((splitDots gf).getLastD "")).getD JValue.null) with
      | none =>
        rw [hd] at hok
        exact absurd hok (by simp)
      | some g =>
        rw [hd] at hok
        dsimp only at hok
        injection hok with hf
        intro prop hmem hne
        rw [← hf]
        show setProp _ "id" (PVal.str hitId) prop = none
        simp only [setProp]
        rw [if_neg hne]
        apply foldProps_not_set
        · intro pth hpm
          have hgf : pth = gf := nodup_keys_eq sf hnd prop pth gf hpm hmem
          rw [hgf]
          exact hstrip
        · rfl
    | null => exact absurd hok (by simp)
    | bool b => exact absurd hok (by simp)
    | num q => exact absurd hok (by simp)
    | str s => exact absurd hok (by simp)
    | arr xs => exact absurd hok (by simp)

/-- C5 amended witness: with geometry field "g" and the single configured
property ("p" mapped from path "g"), the returned feature omits "p". -/
theorem hitToFeature_strips_geometry_witness :
    outcomeProps (hitToFeature decodePoint "g" [("p", "g")] "f1"
      [("g", JValue.obj [("type", JValue.str "Point"),
          ("coordinates", JValue.arr [JValue.num 0, JValue.num 0])])]) "p" = none :=
  (hitToFeature_strips_geometry decodePoint "g" [("p", "g")] "f1"
    [("g", JValue.obj [("type", JValue.str "Point"),
        ("coordinates", JValue.arr [JValue.num 0, JValue.num 0])])]
    ⟨"f1", (0, 0), setProp noProps "id" (PVal.str "f1")⟩ rfl (by simp)).2 "p" (by simp)
    (by decide)

/-- Appending the same suffix to two strings is injective. -/
theorem string_append_right_cancel (a b s : String) (h : a ++ s = b ++ s) : a = b := by
  have hd := congrArg String.data h
  rw [String.data_append, String.data_append] at hd
  exact String.ext (List.append_cancel_right hd)

/-- Two strings ending in suffixes with different final characters differ. -/
theorem string_append_ne_of_last_ne (a b s1 s2 : String) (c1 c2 : Char)
    (h1 : s1.data.getLast? = some c1) (h2 : s2.data.getLast? = some c2) (hne : c1 ≠ c2) :
    a ++ s1 ≠ b ++ s2 := by
  intro h
  have hd := congrArg String.data h
  rw [String.data_append, String.data_append] at hd
  have hn1 : s1.data ≠ [] := by
    intro hnil
    rw [hnil] at h1
    cases h1
  have hn2 : s2.data ≠ [] := by
    intro hnil
    rw [hnil] at h2
    cases h2
  have e1 : (a.data ++ s1.data).getLast? = some c1 := by
    rw [List.getLast?_append_of_ne_nil a.data hn1]
    exact h1
  have e2 : (b.data ++ s2.data).getLast? = some c2 := by
    rw [List.getLast?_append_of_ne_nil b.data hn2]
    exact h2
  rw [hd, e2] at e1
  injection e1 with e3
  exact hne e3.symm

/-- The three metric property keys of one configured name never collide with
those of a different configured name. -/
theorem aggKey_ne (n m : String) (hm : m ≠ n) (sfx : String)
    (hs : sfx = ":avg" ∨ sfx = ":sum" ∨ sfx = ":count") :
    n ++ sfx ≠ m ++ ":avg" ∧ n ++ sfx ≠ m ++ ":sum" ∧ n ++ sfx ≠ m ++ ":count" := by
  rcases hs with h | h | h <;> subst h
  · exact ⟨fun he => hm (string_append_right_cancel n m ":avg" he).symm,
      string_append_ne_of_last_ne n m ":avg" ":sum" 'g' 'm' (by decide) (by decide) (by decide),
      string_append_ne_of_last_ne n m ":avg" ":count" 'g' 't' (by decide) (by decide) (by decide)⟩
  · exact ⟨string_append_ne_of_last_ne n m ":sum" ":avg" 'm' 'g' (by decide) (by decide) (by decide),
      fun he => hm (string_append_right_cancel n m ":sum" he).symm,
      string_append_ne_of_last_ne n m ":sum" ":count" 'm' 't' (by decide) (by decide) (by decide)⟩
  · exact ⟨string_append_ne_of_last_ne n m ":count" ":avg" 't' 'g' (by decide) (by decide) (by decide),
      string_append_ne_of_last_ne n m ":count" ":sum" 't' 'm' (by decide) (by decide) (by decide),
      fun he => hm (string_append_right_cancel n m ":count" he).symm⟩

/-- A step for a metric leaves every key other than its own three keys
unchanged, whatever the bucket reports for it. -/
theorem aggStepTotal_preserves (bstats : List (String × StatsResult)) (ps : PropMap)
    (nf : String × String) (k : String)
    (h1 : k ≠ nf.1 ++ ":avg") (h2 : k ≠ nf.1 ++ ":sum") (h3 : k ≠ nf.1 ++ ":count") :
    aggStepTotal bstats ps nf k = ps k := by
  simp only [aggStepTotal]
  cases hl : lookupKey bstats nf.1 with
  | none => rfl
  | some st =>
    dsimp only
    cases hav : st.avg with
    | none => rfl
    | some av =>
      dsimp only
      cases hsm : st.sum with
      | none => rfl
      | some sm =>
        dsimp only
        simp only [setProp]
        rw [if_neg h3, if_neg h2, if_neg h1]

/-- The fold over configured metrics leaves the keys of a name not among the
configured names unchanged. -/
theorem foldProps_preserves (bstats : List (String × StatsResult)) :
    ∀ (aggs : List (String × String)) (n : String),
      (∀ m, m ∈ aggs.map Prod.fst → m ≠ n) →
      ∀ (ps : PropMap) (sfx : String), sfx = ":avg" ∨ sfx = ":sum" ∨ sfx = ":count" →
        (aggs.foldl (aggStepTotal bstats) ps) (n ++ sfx) = ps (n ++ sfx) := by
  intro aggs
  induction aggs with
  | nil =>
    intro n hn ps sfx hs
    rfl
  | cons e rest ih =>
    intro n hn ps sfx hs
    have h1 := ih n (fun m hmm => hn m (List.mem_cons_of_mem _ hmm)) (aggStepTotal bstats ps e)
      sfx hs
    rw [List.foldl_cons, h1]
    have he : e.1 ≠ n := hn e.1 (by simp)
    obtain ⟨u1, u2, u3⟩ := aggKey_ne n e.1 he sfx hs
    exact aggStepTotal_preserves bstats ps e (n ++ sfx) u1 u2 u3

/-- A configured metric present in the bucket with non-null statistics ends
with exactly its three reported values under its three keys, whatever the
initial map. -/
theorem foldProps_present (bstats : List (String × StatsResult)) (name : String)
    (st : StatsResult) (av sm : Rat) (hst : lookupKey bstats name = some st)
    (havq : st.avg = some av) (hsmq : st.sum = some sm) :
    ∀ (aggs : List (String × String)) (ps : PropMap) (fld : String),
      (aggs.map Prod.fst).Nodup → (name, fld) ∈ aggs →
      (aggs.foldl (aggStepTotal bstats) ps) (name ++ ":avg") = some (PVal.num av) ∧
      (aggs.foldl (aggStepTotal bstats) ps) (name ++ ":sum") = some (PVal.num sm) ∧
      (aggs.foldl (aggStepTotal bstats) ps) (name ++ ":count") = some (PVal.int st.count) := by
  intro aggs
  induction aggs with
  | nil =>
    intro ps fld _ hm
    cases hm
  | cons e rest ih =>
    intro ps fld hnd hm
    simp only [List.map_cons, List.nodup_cons] at hnd
    rcases List.mem_cons.mp hm with he | he
    · have hfst : e.1 = name := by rw [← he]
      have hn : ∀ m, m ∈ rest.map Prod.fst → m ≠ name := by
        intro m hmm heq
        apply hnd.1
        rw [hfst, ← heq]
        exact hmm
      have hstep : ∀ sfx, sfx = ":avg" ∨ sfx = ":sum" ∨ sfx = ":count" →
          ((e :: rest).foldl (aggStepTotal bstats) ps) (name ++ sfx) =
            aggStepTotal bstats ps e (name ++ sfx) := by
        intro sfx hs
        rw [List.foldl_cons]
        exact foldProps_preserves bstats rest name hn (aggStepTotal bstats ps e) sfx hs
      have kac : name ++ ":avg" ≠ name ++ ":count" :=
        string_append_ne_of_last_ne name name ":avg" ":count" 'g' 't' (by decide) (by decide)
          (by decide)
      have kas : name ++ ":avg" ≠ name ++ ":sum" :=
        string_append_ne_of_last_ne name name ":avg" ":sum" 'g' 'm' (by decide) (by decide)
          (by decide)
      have ksc : name ++ ":sum" ≠ name ++ ":count" :=
        string_append_ne_of_last_ne name name ":sum" ":count" 'm' 't' (by decide) (by decide)
          (by decide)
      refine ⟨?_, ?_, ?_⟩
      · rw [hstep ":avg" (Or.inl rfl)]
        simp only [aggStepTotal, hfst, hst, havq, hsmq]
        simp only [setProp]
        simp [kac, kas, ksc]
      · rw [hstep ":sum" (Or.inr (Or.inl rfl))]
        simp only [aggStepTotal, hfst, hst, havq, hsmq]
        simp only [setProp]
        simp [kac, kas, ksc]
      · rw [hstep ":count" (Or.inr (Or.inr rfl))]
        simp only [aggStepTotal, hfst, hst, havq, hsmq]
        simp only [setProp]
        simp [kac, kas, ksc]
    · rw [List.foldl_cons]
      exact ih (aggStepTotal bstats ps e) fld hnd.2 he

/-- A configured metric absent from the bucket contributes none of its three
keys, whatever the other configured metrics do. -/
theorem foldProps_absent (bstats : List (String × StatsResult)) (name : String)
    (hst : lookupKey bstats name = none) :
    ∀ (aggs : List (String × String)) (ps : PropMap),
      ps (name ++ ":avg") = none → ps (name ++ ":sum") = none →
      ps (name ++ ":count") = none →
      (aggs.foldl (aggStepTotal bstats) ps) (name ++ ":avg") = none ∧
      (aggs.foldl (aggStepTotal bstats) ps) (name ++ ":sum") = none ∧
      (aggs.foldl (aggStepTotal bstats) ps) (name ++ ":count") = none := by
  intro aggs
  induction aggs with
  | nil =>
    intro ps h1 h2 h3
    exact ⟨h1, h2, h3⟩
  | cons e rest ih =>
    intro ps h1 h2 h3
    simp only [List.foldl_cons]
    by_cases he : e.1 = name
    · have hstep : aggStepTotal bstats ps e = ps := by
        simp only [aggStepTotal, he, hst]
      rw [hstep]
      exact ih ps h1 h2 h3
    · obtain ⟨v1, v2, v3⟩ := aggKey_ne name e.1 he ":avg" (Or.inl rfl)
      obtain ⟨w1, w2, w3⟩ := aggKey_ne name e.1 he ":sum" (Or.inr (Or.inl rfl))
      obtain ⟨x1, x2, x3⟩ := aggKey_ne name e.1 he ":count" (Or.inr (Or.inr rfl))
      refine ih (aggStepTotal bstats ps e) ?_ ?_ ?_
      · rw [aggStepTotal_preserves bstats ps e _ v1 v2 v3]
        exact h1
      · rw [aggStepTotal_preserves bstats ps e _ w1 w2 w3]
        exact h2
      · rw [aggStepTotal_preserves bstats ps e _ x1 x2 x3]
        exact h3

/-- Every key set by the per-bucket fold is one of the three keys of a
configured metric present in the bucket. -/
theorem foldProps_support (bstats : List (String × StatsResult)) :
    ∀ (aggs : List (String × String)) (ps : PropMap) (k : String),
      (aggs.foldl (aggStepTotal bstats) ps) k ≠ none →
      ps k ≠ none ∨ ∃ nf st, nf ∈ aggs ∧ lookupKey bstats nf.1 = some st ∧
        (k = nf.1 ++ ":avg" ∨ k = nf.1 ++ ":sum" ∨ k = nf.1 ++ ":count") := by
  intro aggs
  induction aggs with
  | nil =>
    intro ps k h
    exact Or.inl h
  | cons e rest ih =>
    intro ps k h
    rw [List.foldl_cons] at h
    rcases ih (aggStepTotal bstats ps e) k h with h2 | ⟨nf, st, hmem, hlk, hk⟩
    · cases hl : lookupKey bstats e.1 with
      | none =>
        have hsp : aggStepTotal bstats ps e = ps := by
          simp only [aggStepTotal, hl]
        rw [hsp] at h2
        exact Or.inl h2
      | some st =>
        cases hav : st.avg with
        | none =>
          have hsp : aggStepTotal bstats ps e = ps := by
            simp only [aggStepTotal, hl, hav]
          rw [hsp] at h2
          exact Or.inl h2
        | some av =>
          cases hsm : st.sum with
          | none =>
            have hsp : aggStepTotal bstats ps e = ps := by
              simp only [aggStepTotal, hl, hav, hsm]
            rw [hsp] at h2
            exact Or.inl h2
          | some sm =>
            by_cases hc : k = e.1 ++ ":count"
            · exact Or.inr ⟨e, st, List.mem_cons_self e rest, hl, Or.inr (Or.inr hc)⟩
            by_cases hs2 : k = e.1 ++ ":sum"
            · exact Or.inr ⟨e, st, List.mem_cons_self e rest, hl, Or.inr (Or.inl hs2)⟩
            by_cases ha : k = e.1 ++ ":avg"
            · exact Or.inr ⟨e, st, List.mem_cons_self e rest, hl, Or.inl ha⟩
            rw [aggStepTotal_preserves bstats ps e k ha hs2 hc] at h2
            exact Or.inl h2
    · exact Or.inr ⟨nf, st, List.mem_cons_of_mem e hmem, hlk, hk⟩

/-- When every statistic a step would dereference is non-null, the step does
not panic and computes its total restriction. -/
theorem aggStep_eq_total (bstats : List (String × StatsResult)) (ps : PropMap)
    (nf : String × String)
    (hnn : ∀ st, lookupKey bstats nf.1 = some st → st.avg.isSome ∧ st.sum.isSome) :
    aggStep bstats ps nf = GoCall.ok (aggStepTotal bstats ps nf) := by
  simp only [aggStep, aggStepTotal]
  cases hl : lookupKey bstats nf.1 with
  | none => rfl
  | some st =>
    obtain ⟨ha, hs⟩ := hnn st hl
    dsimp only
    cases hav : st.avg with
    | none => simp [hav] at ha
    | some av =>
      dsimp only
      cases hsm : st.sum with
      | none => simp [hsm] at hs
      | some sm => rfl

/-- When no configured metric reports a null statistic, the property loop does
not panic and computes the total fold. -/
theorem foldAccum_eq_total (bstats : List (String × StatsResult)) :
    ∀ (aggs : List (String × String)) (ps : PropMap),
      (∀ name fld st, (name, fld) ∈ aggs → lookupKey bstats name = some st →
        st.avg.isSome ∧ st.sum.isSome) →
      aggs.foldl (aggAccum bstats) (GoCall.ok ps) =
        GoCall.ok (aggs.foldl (aggStepTotal bstats) ps) := by
  intro aggs
  induction aggs with
  | nil =>
    intro ps h
    rfl
  | cons e rest ih =>
    intro ps h
    rw [List.foldl_cons, List.foldl_cons]
    have he : aggAccum bstats (GoCall.ok ps) e = GoCall.ok (aggStepTotal bstats ps e) := by
      simp only [aggAccum]
      refine aggStep_eq_total bstats ps e (fun st hl => h e.1 e.2 st ?_ hl)
      rw [Prod.mk.eta]
      exact List.mem_cons_self e rest
    rw [he]
    exact ih (aggStepTotal bstats ps e)
      (fun name fld st hm hl => h name fld st (List.mem_cons_of_mem e hm) hl)

/-- When no bucket reports a configured metric with a null statistic, the
bucket loop does not panic and yields one feature per bucket in order. -/
theorem collectFeatures_eq_total (bbox : String → GeoBox) (aggs : List (String × String)) :
    ∀ (buckets : List AggBucket),
      (∀ b ∈ buckets, ∀ name fld st, (name, fld) ∈ aggs →
        lookupKey b.stats name = some st → st.avg.isSome ∧ st.sum.isSome) →
      collectFeatures bbox aggs buckets =
        GoCall.ok (buckets.map (bucketFeatureTotal bbox aggs)) := by
  intro buckets
  induction buckets with
  | nil =>
    intro h
    rfl
  | cons b rest ih =>
    intro h
    have hb : bucketToFeature bbox aggs b = GoCall.ok (bucketFeatureTotal bbox aggs b) := by
      simp only [bucketToFeature, bucketFeatureTotal, bucketProps]
      rw [foldAccum_eq_total b.stats aggs noProps
        (fun name fld st hm hl => h b (List.mem_cons_self b rest) name fld st hm hl)]
    simp only [collectFeatures, hb]
    rw [ih (fun b2 hb2 => h b2 (List.mem_cons_of_mem b hb2))]
    simp

/-- C4 counterexample: the claim fails as stated.  A response whose single
cell reports the configured metric "pop" with null statistics (a count-0
cell: olivere decodes the null avg/sum into nil pointers) makes
`doGetAggregates` panic on `*statsAgg.Avg` — it produces no feature for that
cell (and no collection at all) instead of the claimed one-feature-per-cell
behavior. -/
theorem doGetAggregates_nullstats_counterexample :
    doGetAggregates (fun _ => ⟨0, 2, 10, 20⟩) [("pop", "population")]
      (Except.ok ⟨some [⟨"9q5", [("pop", ⟨none, none, 0⟩)]⟩]⟩ : Except Nat AggSearchResult) =
      GoCall.panicked := rfl

/-- C4 amended: for every aggregation response in which no reported metric
statistic is null (every configured metric found in a cell carries a non-null
avg and sum), `doGetAggregates` produces exactly one synthetic feature per
reported cell, with geometry the single point at the centroid of the cell's
geohash bounding box and id the cell's key; each such metric yields exactly
the three properties name:avg, name:sum, name:count with the reported values;
a metric absent from a cell contributes none of its three keys, and no other
properties exist.  (A cell reporting a configured metric with a null
statistic instead panics the retrieval on the nil-pointer dereference,
producing no collection.) -/
theorem doGetAggregates_spec {ε : Type} (bbox : String → GeoBox)
    (aggs : List (String × String)) (resp : Except ε AggSearchResult)
    (buckets : List AggBucket) (hok : resp = Except.ok ⟨some buckets⟩)
    (hnd : (aggs.map Prod.fst).Nodup)
    (hnn : ∀ b ∈ buckets, ∀ name fld st, (name, fld) ∈ aggs →
      lookupKey b.stats name = some st → st.avg.isSome ∧ st.sum.isSome) :
    doGetAggregates bbox aggs resp =
      GoCall.ok (some (buckets.map (bucketFeatureTotal bbox aggs)), none) ∧
    ∀ b ∈ buckets,
      (bucketFeatureTotal bbox aggs b).id = b.key ∧
      (bucketFeatureTotal bbox aggs b).lngLat =
        ((bbox b.key).centerLng, (bbox b.key).centerLat) ∧
      (∀ name fld st av sm, (name, fld) ∈ aggs → lookupKey b.stats name = some st →
        st.avg = some av → st.sum = some sm →
        (bucketFeatureTotal bbox aggs b).props (name ++ ":avg") = some (PVal.num av) ∧
        (bucketFeatureTotal bbox aggs b).props (name ++ ":sum") = some (PVal.num sm) ∧
        (bucketFeatureTotal bbox aggs b).props (name ++ ":count") =
          some (PVal.int st.count)) ∧
      (∀ name fld, (name, fld) ∈ aggs → lookupKey b.stats name = none →
        (bucketFeatureTotal bbox aggs b).props (name ++ ":avg") = none ∧
        (bucketFeatureTotal bbox aggs b).props (name ++ ":sum") = none ∧
        (bucketFeatureTotal bbox aggs b).props (name ++ ":count") = none) ∧
      (∀ k, (bucketFeatureTotal bbox aggs b).props k ≠ none →
        ∃ nf st, nf ∈ aggs ∧ lookupKey b.stats nf.1 = some st ∧
          (k = nf.1 ++ ":avg" ∨ k = nf.1 ++ ":sum" ∨ k = nf.1 ++ ":count")) := by
  subst hok
  constructor
  · rw [show doGetAggregates bbox aggs (Except.ok ⟨some buckets⟩ : Except ε AggSearchResult) =
        (match collectFeatures bbox aggs buckets with
         | GoCall.panicked => GoCall.panicked
         | GoCall.ok fs => GoCall.ok (some fs, none)) from rfl,
      collectFeatures_eq_total bbox aggs buckets hnn]
  · intro b hb
    refine ⟨rfl, rfl, ?_, ?_, ?_⟩
    · intro name fld st av sm hm hlk hav hsm
      exact foldProps_present b.stats name st av sm hlk hav hsm aggs noProps fld hnd hm
    · intro name fld hm hlk
      exact foldProps_absent b.stats name hlk aggs noProps rfl rfl rfl
    · intro k hk
      rcases foldProps_support b.stats aggs noProps k hk with h | h
      · exact absurd rfl h
      · exact h

/-- C4 amended witness: a cell reporting metric "pop" with avg=3.5, sum=35,
count=10 yields one feature carrying those three properties. -/
theorem doGetAggregates_spec_witness :
    doGetAggregates (fun _ => ⟨0, 2, 10, 20⟩) [("pop", "population")]
      (Except.ok ⟨some [⟨"9q5", [("pop", ⟨some (7 / 2), some 35, 10⟩)]⟩]⟩ :
        Except Nat AggSearchResult) =
      GoCall.ok (some [bucketFeatureTotal (fun _ => ⟨0, 2, 10, 20⟩) [("pop", "population")]
        ⟨"9q5", [("pop", ⟨some (7 / 2), some 35, 10⟩)]⟩], none) ∧
    (bucketFeatureTotal (fun _ => ⟨0, 2, 10, 20⟩) [("pop", "population")]
      ⟨"9q5", [("pop", ⟨some (7 / 2), some 35, 10⟩)]⟩).props ("pop" ++ ":avg") =
      some (PVal.num (7 / 2)) := by
  have hnn : ∀ b ∈ [(⟨"9q5", [("pop", ⟨some (7 / 2), some 35, 10⟩)]⟩ : AggBucket)],
      ∀ name fld st, (name, fld) ∈ [("pop", "population")] →
        lookupKey b.stats name = some st → st.avg.isSome ∧ st.sum.isSome := by
    intro b hb name fld st hm hl
    have hb2 : b = ⟨"9q5", [("pop", ⟨some (7 / 2), some 35, 10⟩)]⟩ := List.mem_singleton.mp hb
    have hm2 : (name, fld) = ("pop", "population") := List.mem_singleton.mp hm
    injection hm2 with hn2 hf2
    subst hb2
    subst hn2
    have h5 : some (⟨some (7 / 2), some 35, 10⟩ : StatsResult) = some st := hl
    injection h5 with h6
    rw [← h6]
    exact ⟨rfl, rfl⟩
  have h := doGetAggregates_spec (fun _ => ⟨0, 2, 10, 20⟩) [("pop", "population")]
    (Except.ok ⟨some [⟨"9q5", [("pop", ⟨some (7 / 2), some 35, 10⟩)]⟩]⟩ :
      Except Nat AggSearchResult)
    [⟨"9q5", [("pop", ⟨some (7 / 2), some 35, 10⟩)]⟩] rfl (by simp) hnn
  refine ⟨?_, ?_⟩
  · simpa using h.1
  · exact ((h.2 ⟨"9q5", [("pop", ⟨some (7 / 2), some 35, 10⟩)]⟩
      (List.mem_singleton.mpr rfl)).2.2.1 "pop" "population" ⟨some (7 / 2), some 35, 10⟩
      (7 / 2) 35 (by simp) rfl rfl rfl).1

end Tilenol
